import Mathlib

/-!
Verification of the kamiyo-mcp dispute-resolution core.

This file gives a shallow embedding, in Lean 4, of the aggregation and
encoding pipeline of the repository: the refund tier mapper, the
multi-oracle consensus computation, the client-side refund estimator, the
instruction encoders (create-escrow, resolve-with-multi-oracle-consensus,
Ed25519 signature-verification payloads), and the idempotent escrow
creation flow.  Each definition is translated from the JavaScript or
TypeScript source it names; machine numbers are modelled by `Nat`, `Int`
and `Rat` with explicit remarks where JS `number` semantics matter.
-/

namespace KamiyoMcp

/-- Translation of `calculateRefund(qualityScore)` from
`public/oracle-providers/synthetic-oracle-service.js` (the same tier table
is inlined in `generateMultiOracleAssessment` of the same file):
`if (qualityScore < 50) return 100; if (qualityScore < 65) return 75;
if (qualityScore < 80) return 35; return 0;`.
Quality scores in this pipeline are integers, so the argument is `Nat`. -/
def calculateRefund (qualityScore : ℕ) : ℕ :=
  if qualityScore < 50 then 100
  else if qualityScore < 65 then 75
  else if qualityScore < 80 then 35
  else 0

/-- Translation of the refund-percentage branch of `estimateRefund` in
`src/tools/quality.ts`:
`if (qualityScore >= 80) refundPercentage = Math.round((100 - qualityScore) * 0.2);
 else if (qualityScore >= 50) refundPercentage = 20 + Math.round((80 - qualityScore) * 0.3);
 else refundPercentage = 50 + Math.round(50 - qualityScore);`.
For integer scores `0..100` the ideal values `(100-q)/5` and `3*(80-q)/10`
are multiples of one tenth, and JS `Math.round` (round half toward
positive infinity) of a non-negative multiple of one tenth `k/10` is the
integer `(k + 5) / 10`; the double-precision evaluation of the products
rounds to the same result for every score in range (the only half-way
cases, scores 55, 65 and 75, produce exactly representable `7.5`, `4.5`
and `1.5` doubles, which `Math.round` takes upward just as the exact
arithmetic does).  Hence the integer form below. -/
def estimateRefundPercentage (qualityScore : ℕ) : ℕ :=
  if 80 ≤ qualityScore then ((100 - qualityScore) * 2 + 5) / 10
  else if 50 ≤ qualityScore then 20 + ((80 - qualityScore) * 3 + 5) / 10
  else 50 + (50 - qualityScore)

/-- Round-to-nearest with ties to even of the fraction `a / b` (for
`b > 0`), computed on the integer quotient: below the midpoint round
down, above it round up, at the midpoint round to the even quotient.
This is the IEEE-754 rounding of `a / b` expressed at integer
granularity. -/
def rneDiv (a b : ℕ) : ℕ :=
  let q := a / b
  let r := a % b
  if 2 * r < b then q
  else if b < 2 * r then q + 1
  else if q % 2 = 0 then q else q + 1

/-- The IEEE-754 binary64 value of the integer `n`, i.e. the result of a
JS multiplication whose exact product is `n`: integers below `2 ^ 53`
are exactly representable; a larger `n` (binade exponent
`k = n.log2 ≥ 53`) rounds to the nearest multiple of the unit in the
last place `2 ^ (k - 52)`, ties to the even 53-bit mantissa.  Rounding up
at the top of the binade lands on `2 ^ (k + 1)`, also a double. -/
def roundIntToDouble (n : ℕ) : ℕ :=
  if n.log2 ≤ 52 then n
  else
    let u := 2 ^ (n.log2 - 52)
    let q := n / u
    let r := n % u
    if 2 * r < u then q * u
    else if u < 2 * r then (q + 1) * u
    else if q % 2 = 0 then q * u else (q + 1) * u

/-- `Math.floor` of the JS double division `m / 100` for an integer
double `m`, computed exactly in integer arithmetic.  Since
`2 ^ 6 < 100 < 2 ^ 7`, the binade exponent of `m / 100` is
`e = m.log2 - 6` when `2 ^ (m.log2 - 6) ≤ m / 100` (tested without
division as `100 * 2 ^ m.log2 ≤ 64 * m`) and `e = m.log2 - 7` otherwise.
The nearest double to `m / 100` is the round-to-nearest-even multiple of
the unit `2 ^ (e - 52)`; for `e ≤ 52` we scale by `s = 52 - e` (which is
`58 - m.log2`, resp. `59 - m.log2`) and take
`rneDiv (m * 2 ^ s) 100 / 2 ^ s`, whose `Nat` division is exactly
`Math.floor` of the rounded value; for `e > 52` the rounded value is the
integer `rneDiv m (100 * 2 ^ (e - 52)) * 2 ^ (e - 52)`. -/
def jsFloorDiv100 (m : ℕ) : ℕ :=
  if m = 0 then 0
  else if 100 * 2 ^ m.log2 ≤ 64 * m then
    if m.log2 ≤ 58 then rneDiv (m * 2 ^ (58 - m.log2)) 100 / 2 ^ (58 - m.log2)
    else rneDiv m (100 * 2 ^ (m.log2 - 58)) * 2 ^ (m.log2 - 58)
  else
    if m.log2 ≤ 59 then rneDiv (m * 2 ^ (59 - m.log2)) 100 / 2 ^ (59 - m.log2)
    else rneDiv m (100 * 2 ^ (m.log2 - 59)) * 2 ^ (m.log2 - 59)

/-- Translation of `calculateRefundAmount(totalAmount, refundPercentage)`
from `src/solana/transactions.ts`:
`Math.floor((totalAmount * refundPercentage) / 100)` under JS double
semantics, for exactly representable integer inputs: the multiplication
rounds the exact product to binary64 (`roundIntToDouble`), the division
by 100 rounds again to the nearest double, and `Math.floor` truncates
(`jsFloorDiv100`).  This agrees with exact `Nat` arithmetic only while
the product stays below `2 ^ 53`. -/
def calculateRefundAmount (totalAmount refundPercentage : ℕ) : ℕ :=
  jsFloorDiv100 (roundIntToDouble (totalAmount * refundPercentage))

/-- Translation of `calculatePaymentAmount(totalAmount, refundPercentage)`
from `src/solana/transactions.ts`:
`totalAmount - calculateRefundAmount(totalAmount, refundPercentage)`.
`Nat` subtraction agrees with the JS double subtraction whenever the
total is representable and the refund does not exceed it, which holds on
the exact-arithmetic domain of the partition theorem. -/
def calculatePaymentAmount (totalAmount refundPercentage : ℕ) : ℕ :=
  totalAmount - calculateRefundAmount totalAmount refundPercentage

/-- Result record of `calculateConsensus` in
`public/oracle-providers/synthetic-oracle-service.js`.  The JS object
carries `deviationPercent.toFixed(1)` (a one-decimal display string); we
keep the underlying numeric value, which is also the value the
`consensusReached` comparison uses.  `deviationPercent = none` models the
non-finite double (NaN from `0/0`, Infinity from `d/0` with `d > 0`) that
the unguarded division produces exactly when the median is zero. -/
structure ConsensusResult where
  scores : List ℕ
  median : ℕ
  min : ℕ
  max : ℕ
  deviation : ℕ
  deviationPercent : Option ℚ
  consensusReached : Bool
  refundPercentage : ℕ
deriving DecidableEq

attribute [ext] ConsensusResult

/-- Translation of `calculateConsensus(assessments, maxDeviation = 15)`
from `public/oracle-providers/synthetic-oracle-service.js`.  The JS
function reads its input only through `assessments.map(a => a.score)`, so
the embedding takes the extracted integer score list.  The JS
`sort((a, b) => a - b)` is the ascending numeric sort, embedded as
`insertionSort (· ≤ ·)` (any correct ascending sort of a `Nat` list is
extensionally this one).  `scores[...]` reads are `getD _ 0`, total on the
non-empty inputs the pipeline supplies.  A comparison of a non-finite
double against the threshold is false in JS, hence the `none` branch of
`consensusReached`. -/
def calculateConsensus (scoreList : List ℕ) (maxDeviation : ℚ) : ConsensusResult :=
  let scores := scoreList.insertionSort (· ≤ ·)
  let median := scores.getD (scores.length / 2) 0
  let mn := scores.getD 0 0
  let mx := scores.getD (scores.length - 1) 0
  let deviation := mx - mn
  let deviationPercent : Option ℚ :=
    if median = 0 then none else some ((deviation : ℚ) / (median : ℚ) * 100)
  let consensusReached :=
    match deviationPercent with
    | some p => decide (p ≤ maxDeviation)
    | none => false
  { scores := scores, median := median, min := mn, max := mx,
    deviation := deviation, deviationPercent := deviationPercent,
    consensusReached := consensusReached,
    refundPercentage := calculateRefund median }

theorem calculateConsensus_scores (l : List ℕ) (mdev : ℚ) :
    (calculateConsensus l mdev).scores = l.insertionSort (· ≤ ·) := rfl

theorem calculateConsensus_median (l : List ℕ) (mdev : ℚ) :
    (calculateConsensus l mdev).median =
      (l.insertionSort (· ≤ ·)).getD ((l.insertionSort (· ≤ ·)).length / 2) 0 := rfl

theorem calculateConsensus_min (l : List ℕ) (mdev : ℚ) :
    (calculateConsensus l mdev).min = (l.insertionSort (· ≤ ·)).getD 0 0 := rfl

theorem calculateConsensus_max (l : List ℕ) (mdev : ℚ) :
    (calculateConsensus l mdev).max =
      (l.insertionSort (· ≤ ·)).getD ((l.insertionSort (· ≤ ·)).length - 1) 0 := rfl

theorem calculateConsensus_deviation (l : List ℕ) (mdev : ℚ) :
    (calculateConsensus l mdev).deviation =
      (calculateConsensus l mdev).max - (calculateConsensus l mdev).min := rfl

theorem calculateConsensus_deviationPercent (l : List ℕ) (mdev : ℚ) :
    (calculateConsensus l mdev).deviationPercent =
      if (calculateConsensus l mdev).median = 0 then none
      else some (((calculateConsensus l mdev).deviation : ℚ) /
        ((calculateConsensus l mdev).median : ℚ) * 100) := rfl

theorem calculateConsensus_consensusReached (l : List ℕ) (mdev : ℚ) :
    (calculateConsensus l mdev).consensusReached =
      match (calculateConsensus l mdev).deviationPercent with
      | some p => decide (p ≤ mdev)
      | none => false := rfl

theorem calculateConsensus_refundPercentage (l : List ℕ) (mdev : ℚ) :
    (calculateConsensus l mdev).refundPercentage =
      calculateRefund (calculateConsensus l mdev).median := rfl

/-- C1: for every quality score `s ≤ 100` the refund mapper returns 100 on
`[0,50)`, 75 on `[50,65)`, 35 on `[65,80)` and 0 on `[80,100]`, and in
particular maps 49 to 100, 50 to 75, 64 to 75, 65 to 35, 79 to 35,
80 to 0 and 100 to 0. -/
theorem calculateRefund_tiers :
    (∀ s : ℕ, s ≤ 100 →
      (s < 50 → calculateRefund s = 100) ∧
      (50 ≤ s → s < 65 → calculateRefund s = 75) ∧
      (65 ≤ s → s < 80 → calculateRefund s = 35) ∧
      (80 ≤ s → calculateRefund s = 0)) ∧
    calculateRefund 49 = 100 ∧ calculateRefund 50 = 75 ∧
    calculateRefund 64 = 75 ∧ calculateRefund 65 = 35 ∧
    calculateRefund 79 = 35 ∧ calculateRefund 80 = 0 ∧
    calculateRefund 100 = 0 := by
  refine ⟨fun s _ => ⟨?_, ?_, ?_, ?_⟩, by decide, by decide, by decide,
    by decide, by decide, by decide, by decide⟩ <;>
    (intros; simp only [calculateRefund]; split_ifs <;> omega)

/-- Concrete instantiation of `calculateRefund_tiers` at score 50. -/
theorem calculateRefund_tiers_witness : calculateRefund 50 = 75 :=
  (calculateRefund_tiers.1 50 (by decide)).2.1 (by decide) (by decide)

/-- C3 counterexample: at quality score 49 the client-side estimator
returns 51 percent while the resolution tier table returns 100 percent,
so the two refund policies are not the same function. -/
theorem estimateRefund_ne_tier_at_49 :
    ¬ estimateRefundPercentage 49 = calculateRefund 49 := by decide

/-- C3 amended: on scores `0..100` the client-side estimate agrees with
the resolution tier table exactly at the scores 0, 98, 99 and 100, and
differs everywhere else. -/
theorem estimateRefund_vs_tier (s : ℕ) (hs : s ≤ 100) :
    estimateRefundPercentage s = calculateRefund s ↔ (s = 0 ∨ 98 ≤ s) := by
  interval_cases s <;> decide

/-- Concrete instantiation of `estimateRefund_vs_tier` at score 99. -/
theorem estimateRefund_vs_tier_witness :
    estimateRefundPercentage 99 = calculateRefund 99 :=
  (estimateRefund_vs_tier 99 (by decide)).mpr (by decide)

/-- A value between consecutive multiples of `X` divides to the lower
multiplier. -/
theorem div_eq_of_between (y X c : ℕ) (h1 : c * X ≤ y)
    (h2 : y < c * X + X) : y / X = c := by
  refine Nat.div_eq_of_lt_le h1 ?_
  calc y < c * X + X := h2
    _ = (c + 1) * X := by ring

/-- Half-ulp exactness of the rounded division: scaling by any `X ≥ 64`
(in particular `2 ^ s` with `s ≥ 6`), rounding `m * X / 100` to the
nearest integer and dividing the result by `X` recovers the exact
`m / 100`; the rounding cannot cross an integer boundary because the
distance of `m / 100` from the next integer is at least `1 / 100` while
the rounding moves it by at most `1 / (2 * X) ≤ 1 / 128`. -/
theorem rneDiv_mul_div (m X : ℕ) (hX : 64 ≤ X) :
    rneDiv (m * X) 100 / X = m / 100 := by
  have hX0 : 0 < X := by omega
  have hBeq : 100 * (m * X / 100) + m * X % 100 = m * X :=
    Nat.div_add_mod (m * X) 100
  have hr100 : m * X % 100 < 100 := Nat.mod_lt _ (by norm_num)
  have hmeq : 100 * (m / 100) + m % 100 = m := Nat.div_add_mod m 100
  have hprod : m * X = 100 * (m / 100 * X) + m % 100 * X := by
    conv_lhs => rw [← hmeq]
    ring
  have hdX : m % 100 * X + X ≤ 100 * X := by
    have hle : (m % 100 + 1) * X ≤ 100 * X :=
      Nat.mul_le_mul_right X (by omega)
    calc m % 100 * X + X = (m % 100 + 1) * X := by ring
      _ ≤ 100 * X := hle
  have hq1 : m / 100 * X ≤ m * X / 100 := by
    rw [Nat.le_div_iff_mul_le (by norm_num : (0 : ℕ) < 100)]
    have hc : m / 100 * X * 100 = 100 * (m / 100 * X) := by ring
    omega
  have hq2 : m * X / 100 < m / 100 * X + X := by
    rw [Nat.div_lt_iff_lt_mul (by norm_num : (0 : ℕ) < 100)]
    have hc : (m / 100 * X + X) * 100 = 100 * (m / 100 * X) + 100 * X := by
      ring
    omega
  simp only [rneDiv]
  split_ifs with h1 h2 h3
  · exact div_eq_of_between _ _ _ hq1 hq2
  · exact div_eq_of_between _ _ _ (by omega) (by omega)
  · exact div_eq_of_between _ _ _ hq1 hq2
  · exact div_eq_of_between _ _ _ (by omega) (by omega)

/-- Integers below `2 ^ 53` are exactly representable doubles. -/
theorem roundIntToDouble_exact (n : ℕ) (h : n < 2 ^ 53) :
    roundIntToDouble n = n := by
  have hk : n.log2 ≤ 52 := by
    by_cases h0 : n = 0
    · simp [h0, Nat.log2_zero]
    · have hlt := (Nat.log2_lt h0).mpr h
      omega
  unfold roundIntToDouble
  rw [if_pos hk]

/-- For an integer double below `2 ^ 53` the floor of the double
division by 100 equals the exact integer division. -/
theorem jsFloorDiv100_exact (m : ℕ) (h : m < 2 ^ 53) :
    jsFloorDiv100 m = m / 100 := by
  by_cases h0 : m = 0
  · simp [h0, jsFloorDiv100]
  · have hk : m.log2 ≤ 52 := by
      have hlt := (Nat.log2_lt h0).mpr h
      omega
    have hX1 : (64 : ℕ) ≤ 2 ^ (58 - m.log2) := by
      calc (64 : ℕ) = 2 ^ 6 := by norm_num
        _ ≤ 2 ^ (58 - m.log2) := Nat.pow_le_pow_right (by norm_num) (by omega)
    have hX2 : (64 : ℕ) ≤ 2 ^ (59 - m.log2) := by
      calc (64 : ℕ) = 2 ^ 6 := by norm_num
        _ ≤ 2 ^ (59 - m.log2) := Nat.pow_le_pow_right (by norm_num) (by omega)
    unfold jsFloorDiv100
    rw [if_neg h0]
    split_ifs with hb1 hb2 hb3
    · exact rneDiv_mul_div m _ hX1
    · omega
    · exact rneDiv_mul_div m _ hX2
    · omega

/-- C10 counterexample: at total 6252833009938933 (an exactly
representable integer below `2 ^ 53`) and refund percentage 98 the JS
double computation returns 6127776349740155 — the exact product
612777634974015434 rounds up to the double 612777634974015488, whose
quotient by 100 rounds up to the integer double 6127776349740155 — while
the exact floor is 6127776349740154, so the claimed floor identity fails
on the program. -/
theorem calculateRefundAmount_not_exact_floor :
    calculateRefundAmount 6252833009938933 98 = 6127776349740155 ∧
    6252833009938933 * 98 / 100 = 6127776349740154 ∧
    ¬ calculateRefundAmount 6252833009938933 98 =
        6252833009938933 * 98 / 100 := by
  have hlog1 : Nat.log2 612777634974015434 = 59 := by
    have h1 : (59 : ℕ) ≤ Nat.log2 612777634974015434 :=
      (Nat.le_log2 (by norm_num)).mpr (by norm_num)
    have h2 : Nat.log2 612777634974015434 < 60 :=
      (Nat.log2_lt (by norm_num)).mpr (by norm_num)
    omega
  have hlog2 : Nat.log2 612777634974015488 = 59 := by
    have h1 : (59 : ℕ) ≤ Nat.log2 612777634974015488 :=
      (Nat.le_log2 (by norm_num)).mpr (by norm_num)
    have h2 : Nat.log2 612777634974015488 < 60 :=
      (Nat.log2_lt (by norm_num)).mpr (by norm_num)
    omega
  have e0 : (6252833009938933 : ℕ) * 98 = 612777634974015434 := by norm_num
  have e1 : roundIntToDouble 612777634974015434 = 612777634974015488 := by
    unfold roundIntToDouble
    simp only [hlog1]
    norm_num
  have e2 : jsFloorDiv100 612777634974015488 = 6127776349740155 := by
    unfold jsFloorDiv100
    simp only [hlog2]
    rw [if_neg (by norm_num : ¬ (612777634974015488 : ℕ) = 0)]
    rw [if_neg (by norm_num : ¬ (100 * 2 ^ 59 : ℕ) ≤ 64 * 612777634974015488)]
    rw [if_pos (by norm_num : (59 : ℕ) ≤ 59)]
    norm_num [rneDiv]
  have e3 : calculateRefundAmount 6252833009938933 98 = 6127776349740155 := by
    unfold calculateRefundAmount
    rw [e0, e1, e2]
  exact ⟨e3, by norm_num, by rw [e3]; norm_num⟩

/-- C10 amended: on the domain where the double arithmetic is exact —
total below `2 ^ 53`, percentage at most 100 and product
`total * pct` below `2 ^ 53` — the refund and payment amounts partition
the total exactly and the refund is the floor of `total * pct / 100`;
beyond that product bound the double rounding deviates from the exact
floor. -/
theorem refund_payment_partition (total pct : ℕ) (htot : total < 2 ^ 53)
    (hpct : pct ≤ 100) (hprod : total * pct < 2 ^ 53) :
    calculateRefundAmount total pct + calculatePaymentAmount total pct = total ∧
    calculateRefundAmount total pct = total * pct / 100 := by
  have hx : calculateRefundAmount total pct = total * pct / 100 := by
    unfold calculateRefundAmount
    rw [roundIntToDouble_exact _ hprod, jsFloorDiv100_exact _ hprod]
  have hle : total * pct / 100 ≤ total := by
    have h1 : total * pct ≤ total * 100 := Nat.mul_le_mul_left total hpct
    have h2 : total * pct / 100 ≤ total * 100 / 100 := Nat.div_le_div_right h1
    simpa using h2
  refine ⟨?_, hx⟩
  unfold calculatePaymentAmount
  rw [hx]
  omega

/-- Concrete instantiation of `refund_payment_partition` for a one-million
unit total at the 35 percent tier. -/
theorem refund_payment_partition_witness :
    calculateRefundAmount 1000000 35 + calculatePaymentAmount 1000000 35 = 1000000 ∧
    calculateRefundAmount 1000000 35 = 1000000 * 35 / 100 :=
  refund_payment_partition 1000000 35 (by norm_num) (by norm_num) (by norm_num)

/-- C2: on a non-empty score list the consensus computation sorts
ascending; the median is the element at index `length / 2` of the sorted
list; min and max are the least and greatest scores; the deviation is
`max - min`; for a non-zero median the deviation percentage is
`deviation / median * 100` and consensus is reached exactly when that
percentage is at most the threshold; and a refund percentage derived from
the median is always produced, whether or not consensus is reached.  For
`[70, 72, 75, 78, 80]` at threshold 15 this gives median 75, deviation
percentage `40 / 3` (about 13.3) and consensus reached. -/
theorem calculateConsensus_spec :
    (∀ (l : List ℕ) (mdev : ℚ) (r : ConsensusResult),
      r = calculateConsensus l mdev → l ≠ [] →
      r.scores.Sorted (· ≤ ·) ∧ r.scores.Perm l ∧
      (∃ hi : r.scores.length / 2 < r.scores.length,
        r.median = r.scores.get ⟨r.scores.length / 2, hi⟩) ∧
      (r.min ∈ l ∧ ∀ x ∈ l, r.min ≤ x) ∧
      (r.max ∈ l ∧ ∀ x ∈ l, x ≤ r.max) ∧
      r.deviation = r.max - r.min ∧
      (0 < r.median →
        r.deviationPercent = some ((r.deviation : ℚ) / (r.median : ℚ) * 100) ∧
        (r.consensusReached = true ↔
          (r.deviation : ℚ) / (r.median : ℚ) * 100 ≤ mdev)) ∧
      r.refundPercentage = calculateRefund r.median) ∧
    calculateConsensus [70, 72, 75, 78, 80] 15 =
      { scores := [70, 72, 75, 78, 80], median := 75, min := 70, max := 80,
        deviation := 10, deviationPercent := some (40 / 3),
        consensusReached := true, refundPercentage := 35 } := by
  constructor
  · intro l mdev r hr hne
    subst hr
    have hsort : (l.insertionSort (· ≤ ·)).Sorted (· ≤ ·) :=
      List.sorted_insertionSort _ l
    have hperm : (l.insertionSort (· ≤ ·)).Perm l := List.perm_insertionSort _ l
    have hpos : 0 < (l.insertionSort (· ≤ ·)).length := by
      rw [hperm.length_eq]
      exact List.length_pos.mpr hne
    have hm1 : (l.insertionSort (· ≤ ·)).length - 1 <
        (l.insertionSort (· ≤ ·)).length := by omega
    refine ⟨?_, ?_, ?_, ⟨?_, ?_⟩, ⟨?_, ?_⟩, ?_, ?_, ?_⟩
    · rw [calculateConsensus_scores]; exact hsort
    · rw [calculateConsensus_scores]; exact hperm
    · rw [calculateConsensus_scores, calculateConsensus_median]
      have hi : (l.insertionSort (· ≤ ·)).length / 2 <
          (l.insertionSort (· ≤ ·)).length := Nat.div_lt_self hpos (by decide)
      exact ⟨hi, by rw [List.getD_eq_getElem _ _ hi, List.get_eq_getElem]⟩
    · rw [calculateConsensus_min, List.getD_eq_getElem _ _ hpos]
      exact hperm.mem_iff.mp (List.getElem_mem hpos)
    · intro x hx
      rw [calculateConsensus_min, List.getD_eq_getElem _ _ hpos]
      obtain ⟨i, hi, rfl⟩ := List.mem_iff_getElem.mp (hperm.mem_iff.mpr hx)
      have hrel := @List.Sorted.rel_get_of_le ℕ (· ≤ ·) _ _ hsort
        ⟨0, hpos⟩ ⟨i, hi⟩ (by simp [Fin.mk_le_mk])
      simpa [List.get_eq_getElem] using hrel
    · rw [calculateConsensus_max, List.getD_eq_getElem _ _ hm1]
      exact hperm.mem_iff.mp (List.getElem_mem hm1)
    · intro x hx
      rw [calculateConsensus_max, List.getD_eq_getElem _ _ hm1]
      obtain ⟨i, hi, rfl⟩ := List.mem_iff_getElem.mp (hperm.mem_iff.mpr hx)
      have hrel := @List.Sorted.rel_get_of_le ℕ (· ≤ ·) _ _ hsort
        ⟨i, hi⟩ ⟨(l.insertionSort (· ≤ ·)).length - 1, hm1⟩
        (by simp only [Fin.mk_le_mk]; omega)
      simpa [List.get_eq_getElem] using hrel
    · exact calculateConsensus_deviation l mdev
    · intro hmed
      have hne0 : ¬ (calculateConsensus l mdev).median = 0 := by omega
      refine ⟨?_, ?_⟩
      · rw [calculateConsensus_deviationPercent, if_neg hne0]
      · rw [calculateConsensus_consensusReached,
          calculateConsensus_deviationPercent, if_neg hne0]
        simp
    · exact calculateConsensus_refundPercentage l mdev
  · have hm : (calculateConsensus [70, 72, 75, 78, 80] 15).median = 75 := by decide
    have hd : (calculateConsensus [70, 72, 75, 78, 80] 15).deviation = 10 := by decide
    have hdp : (calculateConsensus [70, 72, 75, 78, 80] 15).deviationPercent =
        some (40 / 3) := by
      rw [calculateConsensus_deviationPercent, hm, hd]
      norm_num
    apply ConsensusResult.ext
    · decide
    · exact hm
    · decide
    · decide
    · exact hd
    · exact hdp
    · rw [calculateConsensus_consensusReached, hdp]
      simp only []
      norm_num
    · rw [calculateConsensus_refundPercentage, hm]
      decide

/-- Concrete instantiation of `calculateConsensus_spec` at the score list
from the spec's worked example. -/
theorem calculateConsensus_spec_witness :
    (calculateConsensus [70, 72, 75, 78, 80] 15).refundPercentage =
      calculateRefund (calculateConsensus [70, 72, 75, 78, 80] 15).median :=
  (calculateConsensus_spec.1 [70, 72, 75, 78, 80] 15
    (calculateConsensus [70, 72, 75, 78, 80] 15) rfl (by decide)).2.2.2.2.2.2.2

/-- C4 (code bug): the deviation-percentage division in
`calculateConsensus` is unguarded.  With median 0 the source computes
`(deviation / median) * 100` as a non-finite double (modelled by `none`)
and still returns a full result instead of signalling an explicit
error or sentinel: for the perfectly-agreeing all-zero score list it even
reports `consensusReached = false` while producing a 100 percent refund. -/
theorem calculateConsensus_zero_median_unguarded :
    (calculateConsensus [0, 0, 0] 15).deviationPercent = none ∧
    (calculateConsensus [0, 0, 0] 15).consensusReached = false ∧
    (calculateConsensus [0, 0, 0] 15).refundPercentage = 100 ∧
    (calculateConsensus [0, 0, 5] 15).deviationPercent = none ∧
    (calculateConsensus [0, 0, 5] 15).consensusReached = false ∧
    (calculateConsensus [0, 0, 5] 15).refundPercentage = 100 := by
  refine ⟨?_, ?_, ?_, ?_, ?_, ?_⟩ <;> decide

/-- C6: the consensus computation is invariant under permutation of the
input score list; its output depends only on the multiset of scores. -/
theorem calculateConsensus_perm_invariant (l₁ l₂ : List ℕ) (mdev : ℚ)
    (h : l₁.Perm l₂) :
    calculateConsensus l₁ mdev = calculateConsensus l₂ mdev := by
  have hs : l₁.insertionSort (· ≤ ·) = l₂.insertionSort (· ≤ ·) :=
    List.eq_of_perm_of_sorted
      ((List.perm_insertionSort _ l₁).trans
        (h.trans (List.perm_insertionSort _ l₂).symm))
      (List.sorted_insertionSort _ l₁) (List.sorted_insertionSort _ l₂)
  simp only [calculateConsensus, hs]

/-- Concrete instantiation of `calculateConsensus_perm_invariant` on a
reordering of the worked example's scores. -/
theorem calculateConsensus_perm_invariant_witness :
    calculateConsensus [70, 72, 75, 78, 80] 15 =
      calculateConsensus [80, 70, 75, 72, 78] 15 :=
  calculateConsensus_perm_invariant [70, 72, 75, 78, 80] [80, 70, 75, 72, 78]
    15 (by decide)

/-- Semantics of a bounded `Uint8Array.set` / `Buffer.copy` write: replace
the bytes of `buf` from position `off` on by `bytes`, keeping the rest.
For writes that stay inside the buffer this is exactly what the JS typed
array does. -/
def writeAt (buf : List ℕ) (off : ℕ) (bytes : List ℕ) : List ℕ :=
  buf.take off ++ bytes ++ buf.drop (off + bytes.length)

/-- Little-endian byte expansion, least significant byte first; `leBytes k n`
is the `k`-byte little-endian encoding of `n`, i.e. what the JS helpers
`writeUInt32LE`, `writeBigUInt64LE` and the manual
`v & 0xFF, (v >> 8) & 0xFF` pairs produce. -/
def leBytes : ℕ → ℕ → List ℕ
  | 0, _ => []
  | k + 1, n => n % 256 :: leBytes k (n / 256)

def u16LE (n : ℕ) : List ℕ := leBytes 2 n

def u32LE (n : ℕ) : List ℕ := leBytes 4 n

def u64LE (n : ℕ) : List ℕ := leBytes 8 n

/-- Little-endian byte recomposition, the decoding direction of `leBytes`. -/
def leToNat (l : List ℕ) : ℕ := l.foldr (fun b acc => b + 256 * acc) 0

theorem leBytes_length : ∀ (k n : ℕ), (leBytes k n).length = k
  | 0, _ => rfl
  | k + 1, n => by simp [leBytes, leBytes_length k]

theorem leToNat_leBytes : ∀ (k n : ℕ), n < 256 ^ k → leToNat (leBytes k n) = n := by
  intro k
  induction k with
  | zero => intro n h; simp [pow_zero] at h; simp [leBytes, leToNat, h]
  | succ k ih =>
    intro n h
    have hdiv : n / 256 < 256 ^ k := by
      rw [Nat.div_lt_iff_lt_mul (by norm_num)]
      calc n < 256 ^ (k + 1) := h
        _ = 256 ^ k * 256 := by ring
    simp only [leBytes, leToNat, List.foldr_cons]
    have := ih (n / 256) hdiv
    simp only [leToNat] at this
    rw [this]
    omega

/-- Writing `bytes` over a segment of exactly its own length, at the
offset right after `pre`, splices the buffer. -/
theorem writeAt_exact (pre post rest bytes : List ℕ)
    (h : post.length = bytes.length) :
    writeAt (pre ++ (post ++ rest)) pre.length bytes = pre ++ (bytes ++ rest) := by
  unfold writeAt
  rw [List.take_left' rfl, ← List.drop_drop, List.drop_left' rfl,
    List.drop_left' h, List.append_assoc]

/-- Special case of `writeAt_exact`: overwriting the final segment. -/
theorem writeAt_exact_end (pre post bytes : List ℕ)
    (h : post.length = bytes.length) :
    writeAt (pre ++ post) pre.length bytes = pre ++ bytes := by
  have hx := writeAt_exact pre post [] bytes h
  simpa using hx

/-- Header of the Ed25519 signature-verification instruction built by
`createEd25519Instructions` in
`public/oracle-providers/synthetic-oracle-service.js`, written byte by
byte by the source: signature count 1, padding 0, then little-endian
16-bit fields: signature offset 16 with owning-instruction index 0xFFFF,
public-key offset 80 with index 0xFFFF, message offset 112, message size,
and message owning-instruction index 0xFFFF. -/
def ed25519Header (msgLen : ℕ) : List ℕ :=
  [1, 0,
   16, 0,
   255, 255,
   80, 0,
   255, 255,
   112, 0,
   msgLen % 256, msgLen / 256 % 256,
   255, 255]

/-- Translation of the data layout built per submission by
`createEd25519Instructions`: a `Uint8Array` of size `112 + message length`
is allocated (zero-initialized), the 16 header bytes are written at
offset 0, then `set` places the signature at offset 16, the public key at
offset 80 and the message bytes at offset 112.  The signature from
`nacl.sign.detached` is always 64 bytes and `PublicKey.toBytes()` always
32, matching the fixed offsets. -/
def createEd25519InstructionData (sig pk msg : List ℕ) : List ℕ :=
  writeAt
    (writeAt
      (writeAt
        (writeAt (List.replicate (112 + msg.length) 0) 0 (ed25519Header msg.length))
        16 sig)
      80 pk)
    112 msg

set_option maxRecDepth 100000 in
/-- C5 counterexample: for a 14-byte message the instruction payload
carries the message length itself at bytes 12 and 13 (value 14, then 0),
where the claim's pairing of each offset with an all-ones owning-index
would demand the sentinel byte 255: the message length is separately
encoded in the payload, not left to offset arithmetic. -/
theorem ed25519_message_size_encoded :
    ((createEd25519InstructionData (List.replicate 64 7) (List.replicate 32 9)
        (List.replicate 14 1))[12]? = some 14 ∧
      (createEd25519InstructionData (List.replicate 64 7) (List.replicate 32 9)
        (List.replicate 14 1))[13]? = some 0) ∧
    ¬ (createEd25519InstructionData (List.replicate 64 7) (List.replicate 32 9)
        (List.replicate 14 1))[12]? = some 255 := by decide

/-- C5 amended: the payload is the 16-byte header — count 1, padding 0,
signature offset 16 and index 0xFFFF, public-key offset 80 and index
0xFFFF, message offset 112, then a 2-byte little-endian message-size
field, then the message owning-index 0xFFFF — followed by the 64-byte
signature at offset 16, the 32-byte public key at offset 80 and the raw
message bytes at offset 112. -/
theorem ed25519_layout (sig pk msg : List ℕ)
    (hs : sig.length = 64) (hp : pk.length = 32) :
    createEd25519InstructionData sig pk msg =
      ed25519Header msg.length ++ sig ++ pk ++ msg := by
  have hsplit : List.replicate (112 + msg.length) (0 : ℕ) =
      List.replicate 16 0 ++ (List.replicate 64 0 ++
        (List.replicate 32 0 ++ List.replicate msg.length 0)) := by
    rw [show 112 + msg.length = 16 + (64 + (32 + msg.length)) by omega,
      List.replicate_add, List.replicate_add, List.replicate_add]
  have hh : (ed25519Header msg.length).length = 16 := by
    simp [ed25519Header]
  unfold createEd25519InstructionData
  rw [hsplit]
  rw [show writeAt (List.replicate 16 0 ++ (List.replicate 64 0 ++
      (List.replicate 32 0 ++ List.replicate msg.length 0))) 0
      (ed25519Header msg.length) =
    writeAt ([] ++ (List.replicate 16 0 ++ (List.replicate 64 0 ++
      (List.replicate 32 0 ++ List.replicate msg.length 0))))
      (List.length ([] : List ℕ)) (ed25519Header msg.length) from rfl]
  rw [writeAt_exact [] (List.replicate 16 0) _ _ (by simp [hh])]
  rw [List.nil_append]
  rw [show (16 : ℕ) = (ed25519Header msg.length).length from hh.symm]
  rw [writeAt_exact (ed25519Header msg.length) (List.replicate 64 0) _ sig
    (by simp [hs])]
  rw [← List.append_assoc]
  rw [show (80 : ℕ) = (ed25519Header msg.length ++ sig).length by
    simp [hh, hs]]
  rw [writeAt_exact (ed25519Header msg.length ++ sig) (List.replicate 32 0) _ pk
    (by simp [hp])]
  rw [← List.append_assoc]
  rw [show (112 : ℕ) = ((ed25519Header msg.length ++ sig) ++ pk).length by
    simp [hh, hs, hp]]
  rw [writeAt_exact_end ((ed25519Header msg.length ++ sig) ++ pk)
    (List.replicate msg.length 0) msg (by simp)]

/-- Concrete instantiation of `ed25519_layout` on exact-size inputs. -/
theorem ed25519_layout_witness :
    createEd25519InstructionData (List.replicate 64 7) (List.replicate 32 9)
        (List.replicate 14 1) =
      ed25519Header 14 ++ List.replicate 64 7 ++ List.replicate 32 9 ++
        List.replicate 14 1 := by
  have h := ed25519_layout (List.replicate 64 7) (List.replicate 32 9)
    (List.replicate 14 1) (by simp) (by simp)
  simpa using h

/-- The `initialize_escrow` instruction discriminator (from the IDL) used
by `createEscrow` in `public/oracle-providers/synthetic-oracle-service.js`. -/
def initializeEscrowDiscriminator : List ℕ := [243, 160, 77, 153, 11, 92, 48, 209]

/-- Two's-complement 8-byte little-endian encoding of a signed 64-bit
integer, the semantics of `writeBigInt64LE`. -/
def i64LE (t : ℤ) : List ℕ := u64LE (t % 2 ^ 64).toNat

/-- Translation of the instruction-data layout built by `createEscrow` in
`public/oracle-providers/synthetic-oracle-service.js`: the 8-byte
discriminator, the amount as u64 LE, the time-lock as i64 LE, then the
4-byte u32 LE length of the transaction-id byte string followed by its
raw bytes.  The source writes these sequentially from offset 0 into a
large zeroed buffer and slices it at the final offset, which yields
exactly this concatenation. -/
def encodeInitializeEscrow (amount : ℕ) (timeLock : ℤ) (txIdBytes : List ℕ) :
    List ℕ :=
  initializeEscrowDiscriminator ++ u64LE amount ++ i64LE timeLock ++
    u32LE txIdBytes.length ++ txIdBytes

/-- Modelled from the spec: the repository contains no decoder for the
create-escrow payload (the receiving on-chain program is external), so
this decoder follows the spec's declared layout — 8-byte discriminator,
u64 LE amount, i64 LE two's-complement time-lock, then a 4-byte u32 LE
length followed by exactly that many raw transaction-id bytes. -/
def decodeInitializeEscrow (data : List ℕ) : Option (ℕ × ℤ × List ℕ) :=
  if data.take 8 = initializeEscrowDiscriminator ∧
      (data.drop 28).length = leToNat ((data.drop 24).take 4) then
    some (leToNat ((data.drop 8).take 8),
      if leToNat ((data.drop 16).take 8) < 2 ^ 63
        then (leToNat ((data.drop 16).take 8) : ℤ)
        else (leToNat ((data.drop 16).take 8) : ℤ) - 2 ^ 64,
      data.drop 28)
  else none

/-- C7: encoding a create-escrow payload and decoding it back is the
identity on the amount (any unsigned 64-bit value), the time-lock (any
signed 64-bit value) and the transaction-id bytes (any string of length
below 2^32), length prefix included. -/
theorem initializeEscrow_roundtrip (amount : ℕ) (timeLock : ℤ)
    (txIdBytes : List ℕ) (ha : amount < 2 ^ 64)
    (ht₁ : -(2 ^ 63) ≤ timeLock) (ht₂ : timeLock < 2 ^ 63)
    (hl : txIdBytes.length < 2 ^ 32) :
    decodeInitializeEscrow (encodeInitializeEscrow amount timeLock txIdBytes) =
      some (amount, timeLock, txIdBytes) := by
  have hE : encodeInitializeEscrow amount timeLock txIdBytes =
      initializeEscrowDiscriminator ++ (u64LE amount ++ (i64LE timeLock ++
        (u32LE txIdBytes.length ++ txIdBytes))) := by
    simp [encodeInitializeEscrow, List.append_assoc]
  have hdl : initializeEscrowDiscriminator.length = 8 := rfl
  have l8a : (u64LE amount).length = 8 := leBytes_length 8 _
  have l8t : (i64LE timeLock).length = 8 := leBytes_length 8 _
  have l4 : (u32LE txIdBytes.length).length = 4 := leBytes_length 4 _
  have d8 : (encodeInitializeEscrow amount timeLock txIdBytes).drop 8 =
      u64LE amount ++ (i64LE timeLock ++ (u32LE txIdBytes.length ++ txIdBytes)) := by
    rw [hE]; exact List.drop_left' hdl
  have d16 : (encodeInitializeEscrow amount timeLock txIdBytes).drop 16 =
      i64LE timeLock ++ (u32LE txIdBytes.length ++ txIdBytes) := by
    have hh : ((encodeInitializeEscrow amount timeLock txIdBytes).drop 8).drop 8 =
        (encodeInitializeEscrow amount timeLock txIdBytes).drop 16 := by
      rw [List.drop_drop]
    rw [← hh, d8, List.drop_left' l8a]
  have d24 : (encodeInitializeEscrow amount timeLock txIdBytes).drop 24 =
      u32LE txIdBytes.length ++ txIdBytes := by
    have hh : ((encodeInitializeEscrow amount timeLock txIdBytes).drop 16).drop 8 =
        (encodeInitializeEscrow amount timeLock txIdBytes).drop 24 := by
      rw [List.drop_drop]
    rw [← hh, d16, List.drop_left' l8t]
  have d28 : (encodeInitializeEscrow amount timeLock txIdBytes).drop 28 =
      txIdBytes := by
    have hh : ((encodeInitializeEscrow amount timeLock txIdBytes).drop 24).drop 4 =
        (encodeInitializeEscrow amount timeLock txIdBytes).drop 28 := by
      rw [List.drop_drop]
    rw [← hh, d24, List.drop_left' l4]
  have t8 : (encodeInitializeEscrow amount timeLock txIdBytes).take 8 =
      initializeEscrowDiscriminator := by
    rw [hE]; exact List.take_left' hdl
  have t8a : ((encodeInitializeEscrow amount timeLock txIdBytes).drop 8).take 8 =
      u64LE amount := by
    rw [d8]; exact List.take_left' l8a
  have t8t : ((encodeInitializeEscrow amount timeLock txIdBytes).drop 16).take 8 =
      i64LE timeLock := by
    rw [d16]; exact List.take_left' l8t
  have t4 : ((encodeInitializeEscrow amount timeLock txIdBytes).drop 24).take 4 =
      u32LE txIdBytes.length := by
    rw [d24]; exact List.take_left' l4
  have va : leToNat (u64LE amount) = amount := by
    refine leToNat_leBytes 8 amount ?_
    have h8 : (256 : ℕ) ^ 8 = 2 ^ 64 := by norm_num
    rw [h8]; exact ha
  have vlen : leToNat (u32LE txIdBytes.length) = txIdBytes.length := by
    refine leToNat_leBytes 4 _ ?_
    have h4 : (256 : ℕ) ^ 4 = 2 ^ 32 := by norm_num
    rw [h4]; exact hl
  have hmr : (0 : ℤ) ≤ timeLock % 2 ^ 64 := Int.emod_nonneg _ (by norm_num)
  have hmu : timeLock % 2 ^ 64 < 2 ^ 64 := Int.emod_lt_of_pos _ (by norm_num)
  have vm : leToNat (i64LE timeLock) = (timeLock % 2 ^ 64).toNat := by
    refine leToNat_leBytes 8 _ ?_
    have h8 : (256 : ℕ) ^ 8 = 2 ^ 64 := by norm_num
    rw [h8]
    omega
  have vt : (if leToNat (i64LE timeLock) < 2 ^ 63
      then (leToNat (i64LE timeLock) : ℤ)
      else (leToNat (i64LE timeLock) : ℤ) - 2 ^ 64) = timeLock := by
    rw [vm]
    have h64 : (2 : ℤ) ^ 64 = 18446744073709551616 := by norm_num
    have h63 : (2 : ℤ) ^ 63 = 9223372036854775808 := by norm_num
    have h63n : (2 : ℕ) ^ 63 = 9223372036854775808 := by norm_num
    rw [h64] at hmr hmu
    rw [h63] at ht₁ ht₂
    rw [h64, h63n]
    split_ifs with hcase <;> omega
  rw [decodeInitializeEscrow, t8, d28, t4, vlen, if_pos ⟨rfl, rfl⟩, t8a, va, t8t, vt]

/-- Concrete instantiation of `initializeEscrow_roundtrip` on the spec's
worked example: transaction id "demo-tx-001" (UTF-8 bytes), amount
1000000, time-lock 3600. -/
theorem initializeEscrow_roundtrip_witness :
    decodeInitializeEscrow (encodeInitializeEscrow 1000000 3600
      [100, 101, 109, 111, 45, 116, 120, 45, 48, 48, 49]) =
      some (1000000, 3600, [100, 101, 109, 111, 45, 116, 120, 45, 48, 48, 49]) :=
  initializeEscrow_roundtrip 1000000 3600
    [100, 101, 109, 111, 45, 116, 120, 45, 48, 48, 49]
    (by norm_num) (by norm_num) (by norm_num) (by norm_num)

/-- The `resolve_dispute_multi_oracle` instruction discriminator used by
`resolveDisputeMultiOracle` in
`public/oracle-providers/synthetic-oracle-service.js`. -/
def resolveDisputeMultiOracleDiscriminator : List ℕ :=
  [30, 194, 15, 52, 59, 167, 234, 143]

/-- One oracle submission as assembled by `generateMultiOracleAssessment`:
a 32-byte oracle public key, an integer quality score and a 64-byte
detached signature (key and signature as raw byte lists). -/
structure OracleSubmission where
  oracle : List ℕ
  quality_score : ℕ
  signature : List ℕ

/-- One 97-byte record of the submissions buffer built by
`resolveDisputeMultiOracle`: the oracle public key is `set` at the record
start, `writeUInt8` stores the quality score (one byte, reduced mod 256
by the typed array) at offset 32, and the signature is `set` at
offset 33. -/
def encodeOracleSubmission (s : OracleSubmission) : List ℕ :=
  writeAt (writeAt (writeAt (List.replicate 97 0) 0 s.oracle) 32
    [s.quality_score % 256]) 33 s.signature

/-- Translation of the submissions buffer of `resolveDisputeMultiOracle`:
a u32 LE count of submissions followed by the 97-byte records, each
written into its own region `4 + 97*i .. 4 + 97*(i+1)` of the allocated
buffer, which is this concatenation. -/
def encodeSubmissions (subs : List OracleSubmission) : List ℕ :=
  u32LE subs.length ++ (subs.map encodeOracleSubmission).flatten

/-- Translation of the full `resolve_dispute_multi_oracle` instruction
data: the 8-byte discriminator followed by the submissions buffer
(`resolveData` in the source sets the discriminator at offset 0 and the
submissions bytes at offset 8). -/
def resolveDisputeMultiOracleData (subs : List OracleSubmission) : List ℕ :=
  resolveDisputeMultiOracleDiscriminator ++ encodeSubmissions subs

/-- The fixed oracle registry size: the module-level ORACLES array in
`public/oracle-providers/synthetic-oracle-service.js` is filled by a loop
over indices 0 to 4 with deterministic seeds. -/
def numOracles : ℕ := 5

/-- Translation of the submission loop of `generateMultiOracleAssessment`:
one submission per oracle of the fixed array; each score is the base 70
plus a per-oracle random variation in -5..4
(`Math.floor(Math.random() * 10) - 5`), clamped to 0..100 by
`Math.max(0, Math.min(100, baseScore + variation))`; the oracle public
keys and nacl detached signatures come from the environment and are
abstracted as parameters. -/
def generateMultiOracleSubmissions (oraclePk : Fin numOracles → List ℕ)
    (sg : Fin numOracles → List ℕ) (variation : Fin numOracles → ℤ) :
    List OracleSubmission :=
  (List.finRange numOracles).map fun i =>
    { oracle := oraclePk i,
      quality_score := (max 0 (min 100 (70 + variation i))).toNat,
      signature := sg i }

/-- A submission record with an exactly-32-byte key and exactly-64-byte
signature is the plain concatenation key, score byte, signature. -/
theorem encodeOracleSubmission_eq (s : OracleSubmission)
    (ho : s.oracle.length = 32) (hs : s.signature.length = 64) :
    encodeOracleSubmission s =
      s.oracle ++ [s.quality_score % 256] ++ s.signature := by
  have hsplit : List.replicate 97 (0 : ℕ) =
      List.replicate 32 0 ++ (List.replicate 1 0 ++ List.replicate 64 0) := by
    rw [show (97 : ℕ) = 32 + (1 + 64) from rfl, List.replicate_add,
      List.replicate_add]
  unfold encodeOracleSubmission
  rw [hsplit]
  rw [show writeAt (List.replicate 32 0 ++ (List.replicate 1 0 ++
        List.replicate 64 0)) 0 s.oracle =
      writeAt ([] ++ (List.replicate 32 0 ++ (List.replicate 1 0 ++
        List.replicate 64 0))) (List.length ([] : List ℕ)) s.oracle from rfl]
  rw [writeAt_exact [] (List.replicate 32 0) _ _ (by simp [ho])]
  rw [List.nil_append]
  rw [show (32 : ℕ) = s.oracle.length from ho.symm]
  rw [writeAt_exact s.oracle (List.replicate 1 0) _
    [s.quality_score % 256] (by simp)]
  rw [← List.append_assoc]
  rw [show (33 : ℕ) = (s.oracle ++ [s.quality_score % 256]).length by
    simp [ho]]
  rw [writeAt_exact_end (s.oracle ++ [s.quality_score % 256])
    (List.replicate 64 0) s.signature (by simp [hs])]

/-- C8: the resolve payload is the 8-byte discriminator, then a 4-byte
little-endian count that always equals the number of submissions, then
per submission the 32-byte oracle key, the 1-byte score and the 64-byte
signature concatenated with no separators; and the assessment generator
produces exactly one submission per oracle of the fixed five-oracle
array, so the vector passed to the encoder in the pipeline is never
empty. -/
theorem resolveMultiOracle_encoding (subs : List OracleSubmission)
    (hwf : ∀ s ∈ subs, s.oracle.length = 32 ∧ s.signature.length = 64)
    (hn : subs.length < 2 ^ 32) :
    (resolveDisputeMultiOracleData subs).take 8 =
      resolveDisputeMultiOracleDiscriminator ∧
    leToNat (((resolveDisputeMultiOracleData subs).drop 8).take 4) =
      subs.length ∧
    (resolveDisputeMultiOracleData subs).drop 12 =
      (subs.map fun s =>
        s.oracle ++ [s.quality_score % 256] ++ s.signature).flatten ∧
    (∀ oraclePk sg variation,
      (generateMultiOracleSubmissions oraclePk sg variation).length =
        numOracles ∧
      generateMultiOracleSubmissions oraclePk sg variation ≠ []) := by
  have hdl : resolveDisputeMultiOracleDiscriminator.length = 8 := rfl
  have hu : (u32LE subs.length).length = 4 := leBytes_length 4 _
  have hr : resolveDisputeMultiOracleData subs =
      resolveDisputeMultiOracleDiscriminator ++ (u32LE subs.length ++
        (subs.map encodeOracleSubmission).flatten) := by
    simp [resolveDisputeMultiOracleData, encodeSubmissions, List.append_assoc]
  refine ⟨?_, ?_, ?_, ?_⟩
  · rw [hr]; exact List.take_left' hdl
  · rw [hr, List.drop_left' hdl, List.take_left' hu]
    refine leToNat_leBytes 4 _ ?_
    have h4 : (256 : ℕ) ^ 4 = 2 ^ 32 := by norm_num
    rw [h4]; exact hn
  · have d8 : (resolveDisputeMultiOracleData subs).drop 8 =
        u32LE subs.length ++ (subs.map encodeOracleSubmission).flatten := by
      rw [hr]; exact List.drop_left' hdl
    have d12 : (resolveDisputeMultiOracleData subs).drop 12 =
        (subs.map encodeOracleSubmission).flatten := by
      have hh : ((resolveDisputeMultiOracleData subs).drop 8).drop 4 =
          (resolveDisputeMultiOracleData subs).drop 12 := by
        rw [List.drop_drop]
      rw [← hh, d8, List.drop_left' hu]
    rw [d12]
    congr 1
    exact List.map_congr_left fun s hsm =>
      encodeOracleSubmission_eq s (hwf s hsm).1 (hwf s hsm).2
  · intro oraclePk sg variation
    have hlen : (generateMultiOracleSubmissions oraclePk sg variation).length =
        numOracles := by
      simp [generateMultiOracleSubmissions]
    refine ⟨hlen, ?_⟩
    intro hnil
    rw [hnil] at hlen
    simp [numOracles] at hlen

/-- Concrete instantiation of `resolveMultiOracle_encoding` on a
single-submission list. -/
theorem resolveMultiOracle_encoding_witness :
    leToNat (((resolveDisputeMultiOracleData
      [⟨List.replicate 32 1, 70, List.replicate 64 2⟩]).drop 8).take 4) = 1 :=
  (resolveMultiOracle_encoding [⟨List.replicate 32 1, 70, List.replicate 64 2⟩]
    (by intro s hsm
        rw [List.mem_singleton] at hsm
        subst hsm
        exact ⟨by simp, by simp⟩)
    (by norm_num)).2.1

/-- Outcome of one client create-escrow invocation: `created` when a new
escrow was initialized, `alreadyExistsNoOp` when the client found an
existing escrow and returned null (its success/no-op path), `failed` for
the modelled on-chain rejection. -/
inductive CreateEscrowOutcome where
  | created
  | alreadyExistsNoOp
  | failed
deriving DecidableEq

/-- Modelled from the spec: the on-chain `initialize_escrow` handler is
not part of this repository; per the spec it fails if an escrow already
exists for the same transaction identifier and otherwise creates exactly
one escrow account at the derived address.  The ledger is modelled as the
list of transaction identifiers owning an escrow account: the spec's
address deriver is deterministic and injective in the transaction id, so
identifiers stand for derived addresses. -/
def chainInitializeEscrow (ledger : List String) (txId : String) :
    List String × Bool :=
  if txId ∈ ledger then (ledger, false) else (txId :: ledger, true)

/-- Translation of the existence check of `createEscrow` in
`public/oracle-providers/synthetic-oracle-service.js` — it reads the
escrow account first and, on a hit, logs "skipping creation" and returns
null, a non-error outcome, without submitting anything — combined with
submission of the initialize instruction to the modelled chain
otherwise. -/
def clientCreateEscrow (ledger : List String) (txId : String) :
    List String × CreateEscrowOutcome :=
  if txId ∈ ledger then (ledger, CreateEscrowOutcome.alreadyExistsNoOp)
  else
    let step := chainInitializeEscrow ledger txId
    (step.1,
      if step.2 then CreateEscrowOutcome.created else CreateEscrowOutcome.failed)

/-- C9: starting from a ledger with no escrow for the transaction
identifier, the first create-escrow invocation creates it and the second
invocation is a success/no-op — not an error — leaving the ledger
unchanged with exactly one escrow account for that identifier. -/
theorem createEscrow_idempotent (ledger : List String) (txId : String)
    (h : txId ∉ ledger) :
    (clientCreateEscrow ledger txId).2 = CreateEscrowOutcome.created ∧
    (clientCreateEscrow (clientCreateEscrow ledger txId).1 txId).2 =
      CreateEscrowOutcome.alreadyExistsNoOp ∧
    (clientCreateEscrow (clientCreateEscrow ledger txId).1 txId).2 ≠
      CreateEscrowOutcome.failed ∧
    (clientCreateEscrow (clientCreateEscrow ledger txId).1 txId).1.count txId
      = 1 := by
  have h1 : clientCreateEscrow ledger txId =
      (txId :: ledger, CreateEscrowOutcome.created) := by
    simp [clientCreateEscrow, chainInitializeEscrow, h]
  have h2 : clientCreateEscrow (txId :: ledger) txId =
      (txId :: ledger, CreateEscrowOutcome.alreadyExistsNoOp) := by
    simp [clientCreateEscrow]
  rw [h1]
  refine ⟨rfl, ?_, ?_, ?_⟩
  · rw [h2]
  · rw [h2]; simp
  · rw [h2]
    simp [List.count_cons, List.count_eq_zero.mpr h]

/-- Concrete instantiation of `createEscrow_idempotent` from the empty
ledger with the demo transaction id. -/
theorem createEscrow_idempotent_witness :
    (clientCreateEscrow
      (clientCreateEscrow ([] : List String) "demo-tx-001").1
      "demo-tx-001").1.count "demo-tx-001" = 1 :=
  (createEscrow_idempotent [] "demo-tx-001" (by simp)).2.2.2

end KamiyoMcp
